import Mathlib

/-!
Verification of the shared-whiteboard application's element store, sync
protocol and canvas interaction state machine.  The definitions below are a
shallow embedding of the TypeScript source: `types.ts` (data model),
`App.tsx` (sync protocol: `handleRemoteData`, `handleSetElements`,
`sendSyncMessage`) and `components/Whiteboard.tsx` (geometry, hit-testing and
the pointer-driven interaction state machine).  Numeric coordinates are
modelled as rationals; JavaScript `Math.hypot d < t` comparisons are modelled
by the equivalent squared comparison `d*d < t*t` (equivalent whenever the
threshold `t` is positive, which the theorems assume explicitly).
-/

namespace WB

/-- A point in document space (`types.ts`: `Point`). -/
structure Point where
  x : ℚ
  y : ℚ
deriving DecidableEq

/-- The active tool (`types.ts`: `Tool`). -/
inductive Tool where
  | select
  | pen
  | highlighter
  | eraser
  | strokeEraser
deriving DecidableEq

/-- A drawn stroke (`types.ts`: `Path`). -/
structure Path where
  points : List Point
  color : String
  lineWidth : ℚ
  tool : Tool
deriving DecidableEq

/-- A decoded bitmap handle.  In the source this is an `HTMLImageElement`;
the only observable used by the program is the `src` it was decoded from,
so the handle is modelled as that string. -/
structure Bitmap where
  src : String
deriving DecidableEq

/-- An image element (`types.ts`: `ImageElement`).  The optional `image`
field is the local, non-serializable bitmap handle (stripped before sending
over the wire); `src` is the serializable encoded source.  The optional
`locked` flag of the source is modelled as a `Bool` (the source only ever
reads it through truthiness: `!!el.locked`, `if (el.locked)`). -/
structure ImageElement where
  id : String
  image : Option Bitmap
  src : Option String
  x : ℚ
  y : ℚ
  width : ℚ
  height : ℚ
  locked : Bool
deriving DecidableEq

/-- A committed stroke element (`types.ts`: `PathElement`). -/
structure PathElement where
  id : String
  path : Path
deriving DecidableEq

/-- `types.ts`: `CanvasElement = PathElement | ImageElement` (the source
discriminates on the `type` field; here it is a tagged union). -/
inductive CanvasElement where
  | path (pe : PathElement)
  | image (i : ImageElement)
deriving DecidableEq

/-- The `id` field common to both element variants. -/
def CanvasElement.id : CanvasElement → String
  | .path pe => pe.id
  | .image i => i.id

/-- The partial-fields payload of an `UPDATE_ELEMENT` message.  In the source
the payload is spread over the element (`{ ...el, ...msg.payload }`); a
`none` field models a property absent from the payload. -/
structure UpdatePayload where
  id : String
  x : Option ℚ
  y : Option ℚ
  width : Option ℚ
  height : Option ℚ
  locked : Option Bool
deriving DecidableEq

/-- The wire messages (`types.ts`: `SyncMessage`).  `unknown` stands for any
inbound message whose `type` string matches none of the five known kinds;
the receiving `switch` has no branch for it. -/
inductive SyncMessage where
  | fullState (payload : List CanvasElement)
  | addElement (payload : CanvasElement)
  | removeElement (payload : String)
  | updateElement (payload : UpdatePayload)
  | clearBoard
  | unknown (kind : String)
deriving DecidableEq

/-- Bitmap-handle reconstruction performed by `handleRemoteData` on
`SYNC_FULL_STATE` and `ADD_ELEMENT` payloads: for an image element with a
truthy `src`, a fresh handle is decoded from it (`const img = new Image();
img.src = el.src; return { ...el, image: img }`); all other elements pass
through unchanged. -/
def rehydrate (el : CanvasElement) : CanvasElement :=
  match el with
  | .image i =>
    match i.src with
    | some s => if s != "" then .image { i with image := some ⟨s⟩ } else el
    | none => el
  | .path _ => el

/-- The spread `{ ...el, ...msg.payload }` in the `UPDATE_ELEMENT` branch:
each property present in the payload overwrites the element's.  For a path
element the modelled geometry fields do not exist on the element, so its
observable state is unchanged. -/
def applyUpdate (p : UpdatePayload) (el : CanvasElement) : CanvasElement :=
  match el with
  | .image i => .image { i with
      x := p.x.getD i.x
      y := p.y.getD i.y
      width := p.width.getD i.width
      height := p.height.getD i.height
      locked := p.locked.getD i.locked }
  | .path pe => .path pe

/-- `App.tsx`: `handleRemoteData` — applies one inbound sync message to the
element store (via the raw `setElements` setter). -/
def handleRemoteData (msg : SyncMessage) (elements : List CanvasElement) :
    List CanvasElement :=
  match msg with
  | .fullState payload => payload.map rehydrate
  | .addElement newEl =>
    if elements.any (fun e => e.id == newEl.id) then elements
    else elements ++ [rehydrate newEl]
  | .removeElement pid => elements.filter (fun el => el.id != pid)
  | .updateElement p =>
    elements.map (fun el => if el.id == p.id then applyUpdate p el else el)
  | .clearBoard => []
  | .unknown _ => elements

/-- `App.tsx`: the payload serialization inside `handleSetElements` — an
appended image whose bitmap handle was decoded from a `data:` URL has that
URL substituted for the non-serializable handle before sending. -/
def serializeForAdd (el : CanvasElement) : CanvasElement :=
  match el with
  | .image i =>
    match i.image with
    | some bmp =>
      if bmp.src.startsWith "data:" then .image { i with src := some bmp.src, image := none }
      else el
    | none => el
  | .path _ => el

/-- `App.tsx`: `handleSetElements` — the wrapped setter handed to the
whiteboard.  It computes the next store, diffs lengths and emits at most one
sync message: growth emits `ADD_ELEMENT` for the last element, shrinkage
emits `REMOVE_ELEMENT` for the first missing id, and an equal-length change
emits nothing (the source comments this case as deliberately simplified).
Returns the next store together with the list of messages sent. -/
def handleSetElements (updater : List CanvasElement → List CanvasElement)
    (prev : List CanvasElement) : List CanvasElement × List SyncMessage :=
  let next := updater prev
  if prev.length < next.length then
    match next.getLast? with
    | some newEl => (next, [SyncMessage.addElement (serializeForAdd newEl)])
    | none => (next, [])
  else if next.length < prev.length then
    let remainingIds := next.map CanvasElement.id
    match prev.find? (fun e => !(remainingIds.contains e.id)) with
    | some removed => (next, [SyncMessage.removeElement removed.id])
    | none => (next, [])
  else (next, [])

/-- A store-mutating event of the application: either a local mutation
running through the wrapped setter `handleSetElements`, or an inbound
message running through `handleRemoteData`. -/
inductive AppEvent where
  | localSet (updater : List CanvasElement → List CanvasElement)
  | remote (msg : SyncMessage)

/-- One application step, with the sync messages it emits.  The `remote`
case emits nothing: every branch of `handleRemoteData` mutates the store
through the raw `setElements` setter and never calls `sendSyncMessage`. -/
def appStep : AppEvent → List CanvasElement → List CanvasElement × List SyncMessage
  | .localSet f, s => handleSetElements f s
  | .remote msg, s => (handleRemoteData msg s, [])

/-- Applying a whole trace of inbound messages, collecting every emitted
outbound message along the way. -/
def applyRemoteTrace (msgs : List SyncMessage) (s : List CanvasElement) :
    List CanvasElement × List SyncMessage :=
  match msgs with
  | [] => (s, [])
  | m :: rest =>
    let st := appStep (AppEvent.remote m) s
    let tl := applyRemoteTrace rest st.1
    (tl.1, st.2 ++ tl.2)

/-- Applying a sequence of `ADD_ELEMENT` messages, in receipt order. -/
def applyAdds (els : List CanvasElement) (s : List CanvasElement) :
    List CanvasElement :=
  els.foldl (fun acc e => handleRemoteData (SyncMessage.addElement e) acc) s

/-- `Whiteboard.tsx`, `handleMouseDown` (select tool, lock-button hit):
the updater passed to `setElements` toggling the selected image's lock. -/
def toggleLockUpdater (targetId : String) (els : List CanvasElement) :
    List CanvasElement :=
  els.map fun el =>
    match el with
    | .image i => if i.id == targetId then .image { i with locked := !i.locked } else el
    | .path _ => el

/-- `Whiteboard.tsx`, `getPathAtPoint`: the squared distance from probe
point `p` to the segment `p1 p2`, with the projection parameter clamped to
`[0, 1]` (degenerate segments fall back to point distance, as in the
source's `lenSq === 0` branch).  The source computes `Math.hypot` of the
same differences; the squared value determines it. -/
def segDistSq (p p1 p2 : Point) : ℚ :=
  let dx := p2.x - p1.x
  let dy := p2.y - p1.y
  let lenSq := dx * dx + dy * dy
  if lenSq = 0 then
    (p.x - p1.x) * (p.x - p1.x) + (p.y - p1.y) * (p.y - p1.y)
  else
    let t0 := ((p.x - p1.x) * dx + (p.y - p1.y) * dy) / lenSq
    let t := max 0 (min 1 t0)
    let cx := p1.x + t * dx
    let cy := p1.y + t * dy
    (p.x - cx) * (p.x - cx) + (p.y - cy) * (p.y - cy)

/-- The source's per-segment test `distance < threshold`, in the equivalent
squared form (equivalent because the distance is nonnegative and the
threshold `(lineWidth / 2 + 5) / scale` is positive whenever the zoom scale
is; the theorems assume the positive-threshold side explicitly). -/
def segHit (p p1 p2 : Point) (thr : ℚ) : Bool :=
  decide (segDistSq p p1 p2 < thr * thr)

/-- `Whiteboard.tsx`, `getPathAtPoint` inner loop: a path is hit when some
consecutive point pair is within `(lineWidth / 2 + 5) / scale` of `p`. -/
def pathHit (p : Point) (path : Path) (scale : ℚ) : Bool :=
  let thr := (path.lineWidth / 2 + 5) / scale
  (path.points.zip path.points.tail).any fun pr => segHit p pr.1 pr.2 thr

/-- The element scan of `getPathAtPoint`: the source iterates `i` from
`elements.length - 1` down to `0` and returns the first path hit, so it is
a scan of the reversed store. -/
def getPathAtPointRev (p : Point) (scale : ℚ) :
    List CanvasElement → Option PathElement
  | [] => none
  | el :: rest =>
    match el with
    | .path pe => if pathHit p pe.path scale then some pe else getPathAtPointRev p scale rest
    | .image _ => getPathAtPointRev p scale rest

/-- `Whiteboard.tsx`: `getPathAtPoint` — topmost (reverse z-order) path
within hit distance of the probe point. -/
def getPathAtPoint (elements : List CanvasElement) (p : Point) (scale : ℚ) :
    Option PathElement :=
  getPathAtPointRev p scale elements.reverse

/-- The element scan of `getElementAtPoint`, likewise in reverse z-order. -/
def getElementAtPointRev (p : Point) :
    List CanvasElement → Option ImageElement
  | [] => none
  | el :: rest =>
    match el with
    | .image i =>
      if p.x ≥ i.x ∧ p.x ≤ i.x + i.width ∧ p.y ≥ i.y ∧ p.y ≤ i.y + i.height
      then some i else getElementAtPointRev p rest
    | .path _ => getElementAtPointRev p rest

/-- `Whiteboard.tsx`: `getElementAtPoint` — topmost image whose rectangle
contains the probe point. -/
def getElementAtPoint (elements : List CanvasElement) (p : Point) :
    Option ImageElement :=
  getElementAtPointRev p elements.reverse

/-- The four corner resize handles (`Whiteboard.tsx`: `ResizeHandle`). -/
inductive ResizeHandle where
  | topLeft
  | topRight
  | bottomLeft
  | bottomRight
deriving DecidableEq

/-- The per-corner rectangle recomputation of the `resizing` case of
`handleMouseMove`: each corner anchors the opposite corner, clamps the
mouse-implied width/height to the minimum size, scales the larger
mouse-delta-implied dimension to the image's aspect ratio `ar`, and
re-anchors the rectangle from the fixed corner. -/
def computeResize (i : ImageElement) (handle : ResizeHandle) (mouse : Point) :
    ImageElement :=
  let minSize : ℚ := 20
  let ar := i.width / i.height
  match handle with
  | .topLeft =>
    let anchorX := i.x + i.width
    let anchorY := i.y + i.height
    let w := anchorX - mouse.x
    let h := anchorY - mouse.y
    let w := if w < minSize then minSize else w
    let h := if h < minSize / ar then minSize / ar else h
    let newW := if w / h > ar then w else h * ar
    let newH := if w / h > ar then w / ar else h
    { i with x := anchorX - newW, y := anchorY - newH, width := newW, height := newH }
  | .topRight =>
    let anchorX := i.x
    let anchorY := i.y + i.height
    let w := mouse.x - anchorX
    let h := anchorY - mouse.y
    let w := if w < minSize then minSize else w
    let h := if h < minSize / ar then minSize / ar else h
    let newW := if w / h > ar then w else h * ar
    let newH := if w / h > ar then w / ar else h
    { i with x := anchorX, y := anchorY - newH, width := newW, height := newH }
  | .bottomLeft =>
    let anchorX := i.x + i.width
    let anchorY := i.y
    let w := anchorX - mouse.x
    let h := mouse.y - anchorY
    let w := if w < minSize then minSize else w
    let h := if h < minSize / ar then minSize / ar else h
    let newW := if w / h > ar then w else h * ar
    let newH := if w / h > ar then w / ar else h
    { i with x := anchorX - newW, y := anchorY, width := newW, height := newH }
  | .bottomRight =>
    let anchorX := i.x
    let anchorY := i.y
    let w := mouse.x - anchorX
    let h := mouse.y - anchorY
    let w := if w < minSize then minSize else w
    let h := if h < minSize / ar then minSize / ar else h
    let newW := if w / h > ar then w else h * ar
    let newH := if w / h > ar then w / ar else h
    { i with x := anchorX, y := anchorY, width := newW, height := newH }

/-- The document-space coordinates of the corner opposite the dragged
handle (the anchor of `computeResize`), stated from the spec's wording to
compare against the source's per-corner behaviour. -/
def oppositeCorner (handle : ResizeHandle) (i : ImageElement) : Point :=
  match handle with
  | .topLeft => ⟨i.x + i.width, i.y + i.height⟩
  | .topRight => ⟨i.x, i.y + i.height⟩
  | .bottomLeft => ⟨i.x + i.width, i.y⟩
  | .bottomRight => ⟨i.x, i.y⟩

/-- The interaction action state (`Whiteboard.tsx`: `Action`); the
source's string literal for the inactive state is `'none'`, rendered here
as `idle` to avoid clashing with `Option.none`. -/
inductive Action where
  | idle
  | drawing
  | panning
  | resizing
  | moving
deriving DecidableEq

/-- The mutable interaction state of the whiteboard component: the action
ref, the open (uncommitted) path ref, the active resize-handle ref, the
selection, the element store and the redo stack (`setUndoStack`). -/
structure WBState where
  action : Action
  currentPath : Option Path
  resizeHandle : Option ResizeHandle
  selectedElementId : Option String
  elements : List CanvasElement
  undoStack : List CanvasElement
deriving DecidableEq

/-- The `moving` case of `handleMouseMove`: translate the selected image by
the delta from the recorded anchor to the current point — unless it is
locked, which is re-checked inside the per-element map. -/
def moveStep (selectedElementId : Option String) (moveStart point : Point)
    (elements : List CanvasElement) : List CanvasElement :=
  let dx := point.x - moveStart.x
  let dy := point.y - moveStart.y
  elements.map fun el =>
    match el with
    | .image i =>
      if some i.id == selectedElementId then
        if i.locked then el
        else .image { i with x := i.x + dx, y := i.y + dy }
      else el
    | .path _ => el

/-- The `resizing` case of `handleMouseMove`: recompute the selected
image's rectangle from the active handle — unless it is locked, re-checked
inside the per-element map.  A `none` handle leaves the rectangle
unchanged (the source's `switch` falls through with the old values). -/
def resizeStep (selectedElementId : Option String)
    (handle : Option ResizeHandle) (point : Point)
    (elements : List CanvasElement) : List CanvasElement :=
  elements.map fun el =>
    match el with
    | .image i =>
      if some i.id == selectedElementId then
        if i.locked then el
        else
          match handle with
          | some hd => .image (computeResize i hd point)
          | none => el
      else el
    | .path _ => el

/-- A pointer-move event processed while the action state is `moving` or
`resizing`. -/
inductive DragEvent where
  | move (point : Point)
  | resize (point : Point)

/-- A whole pointer-move sequence: `moving` events also advance the
recorded anchor to the current point (`moveStartRef.current = point`),
`resizing` events leave it alone. -/
def applyDrag (selectedElementId : Option String)
    (handle : Option ResizeHandle) :
    List DragEvent → Point → List CanvasElement → List CanvasElement
  | [], _, els => els
  | .move p :: evs, anchor, els =>
    applyDrag selectedElementId handle evs p
      (moveStep selectedElementId anchor p els)
  | .resize p :: evs, anchor, els =>
    applyDrag selectedElementId handle evs anchor
      (resizeStep selectedElementId handle p els)

/-- `Whiteboard.tsx`: `handleMouseUp` — commits the open path as a new
`PathElement` when the action is `drawing` and the path has more than one
point (stroke width divided by the current zoom scale), clears the redo
stack after a move/resize, and unconditionally resets the action, the open
path and the active handle.  `newId` stands for `Date.now().toString()`. -/
def handleMouseUp (newId : String) (scale : ℚ) (s : WBState) : WBState :=
  let elements :=
    match s.action, s.currentPath with
    | .drawing, some cp =>
      if cp.points.length > 1 then
        s.elements ++
          [CanvasElement.path ⟨newId, { cp with lineWidth := cp.lineWidth / scale }⟩]
      else s.elements
    | _, _ => s.elements
  let undoStack :=
    if s.action = Action.resizing ∨ s.action = Action.moving then []
    else s.undoStack
  { s with action := Action.idle, currentPath := none, resizeHandle := none,
           elements := elements, undoStack := undoStack }

/-- `Whiteboard.tsx`: the canvas binds `onMouseLeave={handleMouseUp}`, so
leaving the canvas is an implicit release. -/
def handleMouseLeave (newId : String) (scale : ℚ) (s : WBState) : WBState :=
  handleMouseUp newId scale s

/-- `Whiteboard.tsx`, `handleMouseDown`, `tool === 'stroke-eraser'` branch:
delete the topmost hit path, else the topmost hit image if unlocked; the
action ref is never assigned, and the handler returns before any action
logic. -/
def handleMouseDownStrokeEraser (p : Point) (scale : ℚ) (s : WBState) :
    WBState :=
  match getPathAtPoint s.elements p scale with
  | some pe =>
    { s with elements := s.elements.filter (fun el => el.id != pe.id), undoStack := [] }
  | none =>
    match getElementAtPoint s.elements p with
    | some i =>
      if !i.locked then
        { s with elements := s.elements.filter (fun el => el.id != i.id), undoStack := [] }
      else s
    | none => s

/-- `Whiteboard.tsx`, `onTouchStart`, `tool === 'stroke-eraser'` branch:
only paths are hit-tested and deleted; images are not considered. -/
def handleTouchStartStrokeEraser (p : Point) (scale : ℚ) (s : WBState) :
    WBState :=
  match getPathAtPoint s.elements p scale with
  | some pe =>
    { s with elements := s.elements.filter (fun el => el.id != pe.id), undoStack := [] }
  | none => s

/-! Concrete inputs used by witnesses and counterexamples. -/

/-- A two-point pen stroke with id `"p1"`. -/
def demoPathEl : PathElement :=
  ⟨"p1", ⟨[⟨0, 0⟩, ⟨2, 0⟩], "#000000", 4, Tool.pen⟩⟩

/-- An unlocked 10×10 image at the origin with id `"i1"`. -/
def demoImg : ImageElement :=
  ⟨"i1", none, some "data:png", 0, 0, 10, 10, false⟩

/-- A one-element store holding only `demoPathEl`. -/
def demoStore : List CanvasElement := [CanvasElement.path demoPathEl]

/-- The two elements delivered by the witness `ADD_ELEMENT` sequence. -/
def demoAdds : List CanvasElement :=
  [CanvasElement.path demoPathEl, CanvasElement.image demoImg]

/-- A three-point open pen path, as left by a drawing drag. -/
def demoOpenPath : Path :=
  ⟨[⟨0, 0⟩, ⟨1, 0⟩, ⟨2, 1⟩], "#000000", 4, Tool.pen⟩

/-- A whiteboard state mid-drawing with `demoOpenPath` open. -/
def demoDrawState : WBState :=
  ⟨Action.drawing, some demoOpenPath, none, none, [], []⟩

/-- A store holding only the unlocked demo image. -/
def demoLockStore : List CanvasElement := [CanvasElement.image demoImg]

/-- An idle whiteboard state whose store holds only the unlocked demo
image (which covers the probe point `(5, 5)`). -/
def demoEraseState : WBState :=
  ⟨Action.idle, none, none, none, [CanvasElement.image demoImg], []⟩

/-! Shared helper lemmas. -/

/-- Bitmap-handle reconstruction never changes an element's id. -/
lemma rehydrate_id (el : CanvasElement) :
    CanvasElement.id (rehydrate el) = CanvasElement.id el := by
  cases el with
  | path pe => rfl
  | image i =>
    cases h : i.src with
    | none => simp [rehydrate, h]
    | some s =>
      simp only [rehydrate, h]
      split <;> simp [CanvasElement.id]

/-- An `ADD_ELEMENT` whose id is fresh for the store appends the
rehydrated element. -/
lemma addElement_fresh (newEl : CanvasElement) (t : List CanvasElement)
    (h : ∀ e ∈ t, CanvasElement.id e ≠ CanvasElement.id newEl) :
    handleRemoteData (SyncMessage.addElement newEl) t = t ++ [rehydrate newEl] := by
  have hfalse : (t.any fun e => e.id == newEl.id) = false := by
    rw [List.any_eq_false]
    intro e he
    simp [h e he]
  simp [handleRemoteData, hfalse]

/-- An `ADD_ELEMENT` whose id already occurs in the store is a no-op. -/
lemma addElement_dup (newEl : CanvasElement) (t : List CanvasElement)
    (h : ∃ e ∈ t, CanvasElement.id e = CanvasElement.id newEl) :
    handleRemoteData (SyncMessage.addElement newEl) t = t := by
  have htrue : (t.any fun e => e.id == newEl.id) = true := by
    rcases h with ⟨e, he, hid⟩
    exact List.any_eq_true.mpr ⟨e, he, by simp [hid]⟩
  simp [handleRemoteData, htrue]

/-- A duplicate delivery of the same `ADD_ELEMENT` is absorbed. -/
lemma addElement_idem (e : CanvasElement) (t : List CanvasElement) :
    handleRemoteData (SyncMessage.addElement e)
        (handleRemoteData (SyncMessage.addElement e) t) =
      handleRemoteData (SyncMessage.addElement e) t := by
  by_cases h : (t.any fun x => x.id == e.id) = true
  · simp [handleRemoteData, h]
  · have h1 : handleRemoteData (SyncMessage.addElement e) t = t ++ [rehydrate e] := by
      simp [handleRemoteData, h]
    have h2 : ((t ++ [rehydrate e]).any fun x => x.id == e.id) = true := by
      refine List.any_eq_true.mpr ⟨rehydrate e, ?_, ?_⟩
      · simp
      · simp [rehydrate_id]
    rw [h1]
    simp [handleRemoteData, h2]

/-- A `moving` pointer step leaves a locked image in place (the lock is
checked inside the per-element map). -/
lemma moveStep_get_locked (sel : Option String) (a p : Point)
    (els : List CanvasElement) (k : ℕ) (i : ImageElement)
    (hget : els[k]? = some (CanvasElement.image i)) (hl : i.locked = true) :
    (moveStep sel a p els)[k]? = some (CanvasElement.image i) := by
  simp only [moveStep]
  rw [List.getElem?_map, hget]
  simp only [Option.map_some']
  split <;> simp [hl]

/-- A `resizing` pointer step leaves a locked image in place (the lock is
checked inside the per-element map). -/
lemma resizeStep_get_locked (sel : Option String) (handle : Option ResizeHandle)
    (p : Point) (els : List CanvasElement) (k : ℕ) (i : ImageElement)
    (hget : els[k]? = some (CanvasElement.image i)) (hl : i.locked = true) :
    (resizeStep sel handle p els)[k]? = some (CanvasElement.image i) := by
  simp only [resizeStep]
  rw [List.getElem?_map, hget]
  simp only [Option.map_some']
  split <;> simp [hl]

/-- A same-length store change through the wrapped setter emits nothing. -/
lemma handleSetElements_length_eq (f : List CanvasElement → List CanvasElement)
    (prev : List CanvasElement) (h : (f prev).length = prev.length) :
    handleSetElements f prev = (f prev, []) := by
  simp [handleSetElements, h]

/-- If an element of the store mutated by `UPDATE_ELEMENT(tid, locked ↦
true)` is an image carrying id `tid`, its lock flag is set. -/
lemma update_locked_mem (tid : String) (guest : List CanvasElement)
    (i : ImageElement)
    (hmem : CanvasElement.image i ∈
      handleRemoteData
        (SyncMessage.updateElement ⟨tid, none, none, none, none, some true⟩) guest)
    (hid : i.id = tid) : i.locked = true := by
  simp only [handleRemoteData] at hmem
  obtain ⟨el, _, heq⟩ := List.mem_map.mp hmem
  cases el with
  | path pe => split at heq <;> simp [applyUpdate] at heq
  | image j =>
    by_cases h : j.id = tid
    · rw [if_pos (show ((CanvasElement.image j).id ==
          (⟨tid, none, none, none, none, some true⟩ : UpdatePayload).id) = true by
            simp [CanvasElement.id, h])] at heq
      simp only [applyUpdate, CanvasElement.image.injEq] at heq
      rw [← heq]
      rfl
    · rw [if_neg (show ¬ ((CanvasElement.image j).id ==
          (⟨tid, none, none, none, none, some true⟩ : UpdatePayload).id) = true by
            simp [CanvasElement.id, h])] at heq
      rw [CanvasElement.image.injEq] at heq
      rw [heq] at h
      exact absurd hid h

/-- The shared per-corner branch of `computeResize` preserves the
width-to-height ratio `W / H` whatever the clamped candidate dimensions
`w`, `h` are. -/
lemma resize_branch_ratio (W H w h : ℚ) (hW : W ≠ 0) (hH : H ≠ 0) :
    (if w / h > W / H then w else h * (W / H)) * H =
      (if w / h > W / H then w / (W / H) else h) * W := by
  split_ifs <;> field_simp

/-- The squared point-to-segment distance is nonnegative. -/
lemma segDistSq_nonneg (p p1 p2 : Point) : 0 ≤ segDistSq p p1 p2 := by
  have key : ∀ a b : ℚ, 0 ≤ a * a + b * b := fun a b => by
    nlinarith [mul_self_nonneg a, mul_self_nonneg b]
  simp only [segDistSq]
  split_ifs <;> exact key _ _

/-- For a positive threshold, the source's `distance < threshold` test is
exactly the squared comparison of `segHit`. -/
lemma segHit_iff_dist (p p1 p2 : Point) (thr : ℚ) (hthr : 0 < thr) :
    segHit p p1 p2 thr = true ↔
      Real.sqrt ((segDistSq p p1 p2 : ℝ)) < (thr : ℝ) := by
  rw [segHit, decide_eq_true_eq, Real.sqrt_lt' (by exact_mod_cast hthr), sq]
  exact_mod_cast Iff.rfl

/-- Membership in the consecutive-pairs zip of a list, by index. -/
lemma mem_zip_tail (l : List Point) (a b : Point) :
    (a, b) ∈ l.zip l.tail ↔ ∃ j, l[j]? = some a ∧ l[j+1]? = some b := by
  induction l with
  | nil => simp
  | cons x xs ih =>
    cases xs with
    | nil =>
      simp only [List.tail_cons, List.zip_nil_right, List.not_mem_nil,
        false_iff, not_exists, not_and]
      intro j hja hjb
      rcases j with _ | k <;> simp at hjb
    | cons y ys =>
      simp only [List.tail_cons, List.zip_cons_cons, List.mem_cons]
      constructor
      · rintro (heq | hrest)
        · obtain ⟨ha, hb⟩ := Prod.mk.injEq .. ▸ heq
          refine ⟨0, ?_, ?_⟩ <;> simp [← ha, ← hb]
        · obtain ⟨j, hja, hjb⟩ := ih.mp (by simpa using hrest)
          exact ⟨j + 1, by simpa using hja, by simpa using hjb⟩
      · rintro ⟨j, hja, hjb⟩
        cases j with
        | zero =>
          left
          simp only [List.getElem?_cons_succ, List.getElem?_cons_zero,
            Option.some.injEq] at hja hjb
          rw [← hja, ← hjb]
        | succ k =>
          right
          simp only [List.getElem?_cons_succ] at hja hjb
          simpa using ih.mpr ⟨k, by simpa using hja, by simpa using hjb⟩

/-- The per-path loop of `getPathAtPoint` reports a hit iff some
consecutive point pair is within (unsquared) distance of the threshold. -/
lemma pathHit_iff (p : Point) (path : Path) (scale : ℚ)
    (hthr : 0 < (path.lineWidth / 2 + 5) / scale) :
    pathHit p path scale = true ↔
      ∃ j a b, path.points[j]? = some a ∧ path.points[j+1]? = some b ∧
        Real.sqrt ((segDistSq p a b : ℝ)) <
          (((path.lineWidth / 2 + 5) / scale : ℚ) : ℝ) := by
  simp only [pathHit]
  rw [List.any_eq_true]
  constructor
  · rintro ⟨⟨a, b⟩, hmem, hhit⟩
    obtain ⟨j, hja, hjb⟩ := (mem_zip_tail _ _ _).mp hmem
    exact ⟨j, a, b, hja, hjb, (segHit_iff_dist _ _ _ _ hthr).mp hhit⟩
  · rintro ⟨j, a, b, hja, hjb, hd⟩
    exact ⟨(a, b), (mem_zip_tail _ _ _).mpr ⟨j, hja, hjb⟩,
      (segHit_iff_dist _ _ _ _ hthr).mpr hd⟩

/-- The element scan misses iff no path element of the scanned list is
hit. -/
lemma getPathAtPointRev_eq_none_iff (p : Point) (scale : ℚ)
    (l : List CanvasElement) :
    getPathAtPointRev p scale l = none ↔
      ∀ pe, CanvasElement.path pe ∈ l → pathHit p pe.path scale = false := by
  induction l with
  | nil => simp [getPathAtPointRev]
  | cons el rest ih =>
    cases el with
    | path pe0 =>
      by_cases hhit : pathHit p pe0.path scale = true
      · simp only [getPathAtPointRev, hhit, if_true]
        constructor
        · intro h; cases h
        · intro hall
          have := hall pe0 (List.mem_cons_self _ _)
          rw [hhit] at this
          cases this
      · have hf : pathHit p pe0.path scale = false := by
          simpa using hhit
        simp only [getPathAtPointRev, hhit, if_false, ih, Bool.false_eq_true]
        constructor
        · intro h pe hm
          rcases List.mem_cons.mp hm with heq | hm'
          · obtain rfl : pe = pe0 := by
              simpa [CanvasElement.path.injEq] using heq
            exact hf
          · exact h pe hm'
        · intro h pe hm
          exact h pe (List.mem_cons_of_mem _ hm)
    | image i =>
      simp only [getPathAtPointRev, ih]
      constructor
      · intro h pe hm
        rcases List.mem_cons.mp hm with heq | hm'
        · cases heq
        · exact h pe hm'
      · intro h pe hm
        exact h pe (List.mem_cons_of_mem _ hm)

/-- The element scan's successful result is the first hit path of the
scanned list: everything strictly before it misses. -/
lemma getPathAtPointRev_eq_some (p : Point) (scale : ℚ)
    (l : List CanvasElement) (pe : PathElement)
    (hsome : getPathAtPointRev p scale l = some pe) :
    ∃ l1 l2, l = l1 ++ CanvasElement.path pe :: l2 ∧
      pathHit p pe.path scale = true ∧
      ∀ pe', CanvasElement.path pe' ∈ l1 → pathHit p pe'.path scale = false := by
  induction l with
  | nil => cases hsome
  | cons el rest ih =>
    cases el with
    | path pe0 =>
      by_cases hhit : pathHit p pe0.path scale = true
      · have : pe0 = pe := by
          simpa [getPathAtPointRev, hhit] using hsome
        subst this
        exact ⟨[], rest, rfl, hhit, by simp⟩
      · have hsome' : getPathAtPointRev p scale rest = some pe := by
          simpa [getPathAtPointRev, hhit] using hsome
        obtain ⟨l1, l2, hl, hhitpe, hmiss⟩ := ih hsome'
        refine ⟨CanvasElement.path pe0 :: l1, l2, by rw [hl, List.cons_append],
          hhitpe, ?_⟩
        intro pe' hmem
        rcases List.mem_cons.mp hmem with heq | hmem'
        · obtain rfl : pe' = pe0 := by
            simpa [CanvasElement.path.injEq] using heq
          simpa using hhit
        · exact hmiss pe' hmem'
    | image i =>
      have hsome' : getPathAtPointRev p scale rest = some pe := by
        simpa [getPathAtPointRev] using hsome
      obtain ⟨l1, l2, hl, hhitpe, hmiss⟩ := ih hsome'
      refine ⟨CanvasElement.image i :: l1, l2, by rw [hl, List.cons_append],
        hhitpe, ?_⟩
      intro pe' hmem
      rcases List.mem_cons.mp hmem with heq | hmem'
      · cases heq
      · exact hmiss pe' hmem'

/-! Claim theorems. -/

/-- C1: a sequence of `ADD_ELEMENT` messages with ids that are pairwise
distinct and fresh for the store appends exactly one (rehydrated) element
per message, in receipt order; an element is appended iff no stored element
shares its id, and a duplicate delivery of the same message is a no-op. -/
theorem addElement_sequence_spec (s msgEls : List CanvasElement)
    (hdist : msgEls.Pairwise fun a b => CanvasElement.id a ≠ CanvasElement.id b)
    (hfresh : ∀ m ∈ msgEls, ∀ e ∈ s, CanvasElement.id e ≠ CanvasElement.id m) :
    applyAdds msgEls s = s ++ msgEls.map rehydrate ∧
    (∀ (e : CanvasElement) (t : List CanvasElement),
      (∀ x ∈ t, CanvasElement.id x ≠ CanvasElement.id e) →
        handleRemoteData (SyncMessage.addElement e) t = t ++ [rehydrate e]) ∧
    (∀ (e : CanvasElement) (t : List CanvasElement),
      (∃ x ∈ t, CanvasElement.id x = CanvasElement.id e) →
        handleRemoteData (SyncMessage.addElement e) t = t) ∧
    (∀ (e : CanvasElement) (t : List CanvasElement),
      handleRemoteData (SyncMessage.addElement e)
          (handleRemoteData (SyncMessage.addElement e) t) =
        handleRemoteData (SyncMessage.addElement e) t) := by
  refine ⟨?_, addElement_fresh, addElement_dup, addElement_idem⟩
  induction msgEls generalizing s with
  | nil => simp [applyAdds]
  | cons m rest ih =>
    have hstep : handleRemoteData (SyncMessage.addElement m) s = s ++ [rehydrate m] :=
      addElement_fresh m s (fun e he => hfresh m (List.mem_cons_self _ _) e he)
    have hrest : applyAdds rest (s ++ [rehydrate m]) =
        (s ++ [rehydrate m]) ++ rest.map rehydrate := by
      refine ih _ hdist.of_cons ?_
      intro m' hm' e he
      rcases List.mem_append.mp he with hes | hee
      · exact hfresh m' (List.mem_cons_of_mem _ hm') e hes
      · have : e = rehydrate m := by simpa using hee
        rw [this, rehydrate_id]
        exact List.rel_of_pairwise_cons hdist hm'
    calc applyAdds (m :: rest) s
        = applyAdds rest (handleRemoteData (SyncMessage.addElement m) s) := rfl
      _ = applyAdds rest (s ++ [rehydrate m]) := by rw [hstep]
      _ = (s ++ [rehydrate m]) ++ rest.map rehydrate := hrest
      _ = s ++ (m :: rest).map rehydrate := by simp

/-- C1 witness: delivering the two demo elements to the empty store yields
exactly those elements (rehydrated) in receipt order. -/
theorem addElement_sequence_spec_witness :
    ((demoAdds.Pairwise fun a b => CanvasElement.id a ≠ CanvasElement.id b) ∧
      (∀ m ∈ demoAdds, ∀ e ∈ ([] : List CanvasElement),
        CanvasElement.id e ≠ CanvasElement.id m)) ∧
    applyAdds demoAdds [] = [] ++ demoAdds.map rehydrate :=
  ⟨⟨by decide, by decide⟩,
    (addElement_sequence_spec [] demoAdds (by decide) (by decide)).1⟩

/-- C2: a `SYNC_FULL_STATE` message replaces the whole store by the
delivered sequence with bitmap handles reconstructed, regardless of the
prior contents, and applying it twice gives the same store as once. -/
theorem fullState_replaces_store (s E : List CanvasElement) :
    handleRemoteData (SyncMessage.fullState E) s = E.map rehydrate ∧
    handleRemoteData (SyncMessage.fullState E)
        (handleRemoteData (SyncMessage.fullState E) s) =
      handleRemoteData (SyncMessage.fullState E) s :=
  ⟨rfl, rfl⟩

/-- C9: a `REMOVE_ELEMENT` or `UPDATE_ELEMENT` against an id absent from
the store, and any inbound message of an unknown kind, leave the store
unchanged (every branch is a total function — nothing is thrown). -/
theorem absent_and_unknown_noop (s : List CanvasElement) (pid : String)
    (p : UpdatePayload) (k : String)
    (hrem : ∀ e ∈ s, CanvasElement.id e ≠ pid)
    (hupd : ∀ e ∈ s, CanvasElement.id e ≠ p.id) :
    handleRemoteData (SyncMessage.removeElement pid) s = s ∧
    handleRemoteData (SyncMessage.updateElement p) s = s ∧
    handleRemoteData (SyncMessage.unknown k) s = s := by
  refine ⟨?_, ?_, rfl⟩
  · simp only [handleRemoteData]
    apply List.filter_eq_self.mpr
    intro e he
    simp [hrem e he]
  · simp only [handleRemoteData]
    conv_rhs => rw [← List.map_id s]
    apply List.map_congr_left
    intro e he
    simp [hupd e he]

/-- C9 witness: removing id `"b"`, updating id `"b"` and a `"FOO"` message
leave the one-element demo store untouched. -/
theorem absent_and_unknown_noop_witness :
    ((∀ e ∈ demoStore, CanvasElement.id e ≠ "b") ∧
      (∀ e ∈ demoStore, CanvasElement.id e ≠
        (UpdatePayload.mk "b" none none none none (some true)).id)) ∧
    (handleRemoteData (SyncMessage.removeElement "b") demoStore = demoStore ∧
      handleRemoteData
          (SyncMessage.updateElement ⟨"b", none, none, none, none, some true⟩)
          demoStore = demoStore ∧
      handleRemoteData (SyncMessage.unknown "FOO") demoStore = demoStore) :=
  ⟨⟨by decide, by decide⟩,
    absent_and_unknown_noop demoStore "b" ⟨"b", none, none, none, none, some true⟩
      "FOO" (by decide) (by decide)⟩

/-- C10: applying inbound messages never emits an outbound message — every
`handleRemoteData` branch goes through the raw setter, so a whole trace of
received messages of any kinds sends nothing. -/
theorem remote_apply_never_emits (msgs : List SyncMessage)
    (s : List CanvasElement) :
    (applyRemoteTrace msgs s).2 = [] ∧
    ∀ (m : SyncMessage) (t : List CanvasElement),
      appStep (AppEvent.remote m) t = (handleRemoteData m t, []) := by
  refine ⟨?_, fun m t => rfl⟩
  induction msgs generalizing s with
  | nil => rfl
  | cons m rest ih => simpa [applyRemoteTrace, appStep] using ih _

/-- C3: a locked image survives any sequence of pointer-move events in the
`moving`/`resizing` action states completely unchanged (in particular its
`x`, `y`, `width`, `height`), for every selection and active handle — the
lock flag is re-checked inside every individual mutation step. -/
theorem locked_invariant_under_drag (sel : Option String)
    (handle : Option ResizeHandle) (evs : List DragEvent) (anchor : Point)
    (els : List CanvasElement) (k : ℕ) (i : ImageElement)
    (hget : els[k]? = some (CanvasElement.image i)) (hl : i.locked = true) :
    (applyDrag sel handle evs anchor els)[k]? =
      some (CanvasElement.image i) := by
  induction evs generalizing anchor els with
  | nil => simpa [applyDrag] using hget
  | cons ev rest ih =>
    cases ev with
    | move p => exact ih _ _ (moveStep_get_locked sel anchor p els k i hget hl)
    | resize p =>
      exact ih _ _ (resizeStep_get_locked sel handle p els k i hget hl)

/-- C3 witness: a locked demo image targeted by a move followed by a
resize is untouched. -/
theorem locked_invariant_under_drag_witness :
    (([CanvasElement.image { demoImg with locked := true }] :
        List CanvasElement)[0]? =
        some (CanvasElement.image { demoImg with locked := true }) ∧
      ({ demoImg with locked := true } : ImageElement).locked = true) ∧
    (applyDrag (some "i1") (some ResizeHandle.topLeft)
        [DragEvent.move ⟨3, 3⟩, DragEvent.resize ⟨7, 8⟩] ⟨0, 0⟩
        [CanvasElement.image { demoImg with locked := true }])[0]? =
      some (CanvasElement.image { demoImg with locked := true }) :=
  ⟨⟨by decide, by decide⟩,
    locked_invariant_under_drag (some "i1") (some ResizeHandle.topLeft)
      [DragEvent.move ⟨3, 3⟩, DragEvent.resize ⟨7, 8⟩] ⟨0, 0⟩
      [CanvasElement.image { demoImg with locked := true }] 0
      { demoImg with locked := true } (by decide) (by decide)⟩

/-- C6 counterexample: toggling the lock of the (unlocked) demo image
through the wrapped setter updates the host's local store but emits no
sync message at all — in particular no `UPDATE_ELEMENT` — contradicting
the claimed `UpdateElement(id, locked: true)` emission. -/
theorem lock_toggle_counterexample :
    handleSetElements (toggleLockUpdater "i1") demoLockStore =
      ([CanvasElement.image { demoImg with locked := true }],
        ([] : List SyncMessage)) := by
  decide

/-- C6 (amended): the host-side lock toggle mutates only the local store
and emits nothing; if the guest nonetheless receives an
`UpdateElement(tid, locked: true)`, every image in its store carrying id
`tid` becomes locked, and a subsequent guest-side `moving` drag targeting
`tid` changes nothing. -/
theorem lock_toggle_amended (tid : String) (prev guest : List CanvasElement)
    (a p : Point) :
    handleSetElements (toggleLockUpdater tid) prev =
      (toggleLockUpdater tid prev, []) ∧
    (∀ i : ImageElement,
      CanvasElement.image i ∈
          handleRemoteData
            (SyncMessage.updateElement ⟨tid, none, none, none, none, some true⟩)
            guest →
        i.id = tid → i.locked = true) ∧
    moveStep (some tid) a p
        (handleRemoteData
          (SyncMessage.updateElement ⟨tid, none, none, none, none, some true⟩)
          guest) =
      handleRemoteData
        (SyncMessage.updateElement ⟨tid, none, none, none, none, some true⟩)
        guest := by
  refine ⟨handleSetElements_length_eq _ _ (by simp [toggleLockUpdater]),
    fun i hmem hid => update_locked_mem tid guest i hmem hid, ?_⟩
  simp only [moveStep]
  conv_rhs =>
    rw [← List.map_id (handleRemoteData
      (SyncMessage.updateElement ⟨tid, none, none, none, none, some true⟩) guest)]
  apply List.map_congr_left
  intro x hx
  cases x with
  | path pe => rfl
  | image j =>
    by_cases hsel : (some j.id == some tid) = true
    · have hjid : j.id = tid := by simpa using hsel
      have hlock : j.locked = true := update_locked_mem tid guest j hx hjid
      simp [hsel, hlock]
    · simp [hsel]

/-- C6 witness: the guest's demo image with id `"i1"` is locked after
applying `UpdateElement("i1", locked: true)`. -/
theorem lock_toggle_amended_witness :
    (CanvasElement.image { demoImg with locked := true } ∈
        handleRemoteData
          (SyncMessage.updateElement ⟨"i1", none, none, none, none, some true⟩)
          demoLockStore ∧
      ({ demoImg with locked := true } : ImageElement).id = "i1") ∧
    ({ demoImg with locked := true } : ImageElement).locked = true :=
  ⟨⟨by decide, by decide⟩,
    (lock_toggle_amended "i1" demoLockStore demoLockStore ⟨0, 0⟩ ⟨1, 1⟩).2.1
      { demoImg with locked := true } (by decide) (by decide)⟩

/-- C7: pointer-up commits the open path as a new appended `PathElement`
iff it has at least two points (with stroke width divided by the zoom scale
at commit time), discards shorter paths, leaves the store alone outside
`drawing`, resets the action to idle and the open path/handle refs
unconditionally, and pointer-leave runs the same release handler. -/
theorem mouseUp_spec (newId : String) (scale : ℚ) (s : WBState) :
    (handleMouseUp newId scale s).action = Action.idle ∧
    (handleMouseUp newId scale s).currentPath = none ∧
    (handleMouseUp newId scale s).resizeHandle = none ∧
    (∀ cp, s.action = Action.drawing → s.currentPath = some cp →
      (2 ≤ cp.points.length →
        (handleMouseUp newId scale s).elements =
          s.elements ++
            [CanvasElement.path
              ⟨newId, { cp with lineWidth := cp.lineWidth / scale }⟩]) ∧
      (cp.points.length < 2 →
        (handleMouseUp newId scale s).elements = s.elements)) ∧
    (s.action ≠ Action.drawing →
      (handleMouseUp newId scale s).elements = s.elements) ∧
    handleMouseLeave newId scale s = handleMouseUp newId scale s := by
  refine ⟨rfl, rfl, rfl, ?_, ?_, rfl⟩
  · intro cp ha hc
    constructor
    · intro hlen
      simp only [handleMouseUp, ha, hc]
      rw [if_pos (by omega)]
    · intro hlen
      simp only [handleMouseUp, ha, hc]
      rw [if_neg (by omega)]
  · intro h
    simp only [handleMouseUp]
    cases ha : s.action <;> cases hc : s.currentPath <;>
      simp_all [handleMouseUp]

/-- C7 witness: releasing mid-drawing at zoom scale 2 commits the open
three-point path with its stroke width halved. -/
theorem mouseUp_spec_witness :
    (demoDrawState.action = Action.drawing ∧
      demoDrawState.currentPath = some demoOpenPath ∧
      2 ≤ demoOpenPath.points.length) ∧
    (handleMouseUp "n1" 2 demoDrawState).elements =
      demoDrawState.elements ++
        [CanvasElement.path
          ⟨"n1", { demoOpenPath with lineWidth := demoOpenPath.lineWidth / 2 }⟩] :=
  ⟨⟨rfl, rfl, by decide⟩,
    ((mouseUp_spec "n1" 2 demoDrawState).2.2.2.1 demoOpenPath rfl rfl).1
      (by decide)⟩

/-- C8 counterexample: with the unlocked demo image under the probe point,
the mouse stroke-eraser removes it but the touch stroke-eraser leaves the
store unchanged — the claimed mouse/touch parity fails. -/
theorem strokeEraser_touch_counterexample :
    handleTouchStartStrokeEraser ⟨5, 5⟩ 1 demoEraseState = demoEraseState ∧
    (handleMouseDownStrokeEraser ⟨5, 5⟩ 1 demoEraseState).elements = [] := by
  refine ⟨by decide, ?_⟩
  norm_num [handleMouseDownStrokeEraser, getPathAtPoint, getPathAtPointRev,
    getElementAtPoint, getElementAtPointRev, demoEraseState, demoImg,
    CanvasElement.id]

/-- C8 (amended): a stroke-eraser pointer-down never changes the action
state; the mouse handler removes the topmost hit path, else the topmost
hit image if unlocked (a locked one is left untouched), else nothing; the
touch handler hit-tests paths only and never removes images. -/
theorem strokeEraser_spec (p : Point) (scale : ℚ) (s : WBState) :
    (handleMouseDownStrokeEraser p scale s).action = s.action ∧
    (handleTouchStartStrokeEraser p scale s).action = s.action ∧
    (∀ pe, getPathAtPoint s.elements p scale = some pe →
      (handleMouseDownStrokeEraser p scale s).elements =
          s.elements.filter (fun el => el.id != pe.id) ∧
        (handleTouchStartStrokeEraser p scale s).elements =
          s.elements.filter (fun el => el.id != pe.id)) ∧
    (getPathAtPoint s.elements p scale = none →
      handleTouchStartStrokeEraser p scale s = s ∧
      (∀ i, getElementAtPoint s.elements p = some i →
        (i.locked = true → handleMouseDownStrokeEraser p scale s = s) ∧
        (i.locked = false →
          (handleMouseDownStrokeEraser p scale s).elements =
            s.elements.filter (fun el => el.id != i.id))) ∧
      (getElementAtPoint s.elements p = none →
        handleMouseDownStrokeEraser p scale s = s)) := by
  refine ⟨?_, ?_, ?_, ?_⟩
  · simp only [handleMouseDownStrokeEraser]
    cases hp : getPathAtPoint s.elements p scale with
    | some pe => rfl
    | none =>
      cases hi : getElementAtPoint s.elements p with
      | some i => cases hl : i.locked <;> simp [hl]
      | none => rfl
  · simp only [handleTouchStartStrokeEraser]
    cases hp : getPathAtPoint s.elements p scale with
    | some pe => rfl
    | none => rfl
  · intro pe hp
    constructor
    · simp [handleMouseDownStrokeEraser, hp]
    · simp [handleTouchStartStrokeEraser, hp]
  · intro hp
    refine ⟨by simp [handleTouchStartStrokeEraser, hp], ?_, ?_⟩
    · intro i hi
      constructor
      · intro hl
        simp [handleMouseDownStrokeEraser, hp, hi, hl]
      · intro hl
        simp [handleMouseDownStrokeEraser, hp, hi, hl]
    · intro hi
      simp [handleMouseDownStrokeEraser, hp, hi]

/-- C8 witness: on the demo state, the mouse stroke-eraser keeps the
action and removes the unlocked image under the probe point. -/
theorem strokeEraser_spec_witness :
    (getPathAtPoint demoEraseState.elements ⟨5, 5⟩ 1 = none ∧
      getElementAtPoint demoEraseState.elements ⟨5, 5⟩ = some demoImg ∧
      demoImg.locked = false) ∧
    ((handleMouseDownStrokeEraser ⟨5, 5⟩ 1 demoEraseState).action =
        demoEraseState.action ∧
      (handleMouseDownStrokeEraser ⟨5, 5⟩ 1 demoEraseState).elements =
        demoEraseState.elements.filter (fun el => el.id != demoImg.id)) :=
  ⟨⟨by decide,
      by norm_num [getElementAtPoint, getElementAtPointRev, demoEraseState,
        demoImg],
      by decide⟩,
    ⟨(strokeEraser_spec ⟨5, 5⟩ 1 demoEraseState).1,
      (((strokeEraser_spec ⟨5, 5⟩ 1 demoEraseState).2.2.2 (by decide)).2.1
          demoImg (by norm_num [getElementAtPoint, getElementAtPointRev,
            demoEraseState, demoImg])).2 (by decide)⟩⟩

/-- C4: every resizing step from any of the four corner handles keeps the
document-space coordinates of the corner opposite the dragged handle fixed
and preserves the image's width-to-height ratio (stated cross-multiplied),
independently of clamping by the minimum-size floor; the four corners'
anchors are pairwise distinct points. -/
theorem computeResize_spec (i : ImageElement) (handle : ResizeHandle)
    (mouse : Point) (hw : 0 < i.width) (hh : 0 < i.height) :
    (computeResize i handle mouse).width * i.height =
        (computeResize i handle mouse).height * i.width ∧
    oppositeCorner handle (computeResize i handle mouse) =
        oppositeCorner handle i ∧
    (∀ h1 h2 : ResizeHandle, h1 ≠ h2 →
        oppositeCorner h1 i ≠ oppositeCorner h2 i) := by
  have hW : i.width ≠ 0 := ne_of_gt hw
  have hH : i.height ≠ 0 := ne_of_gt hh
  refine ⟨?_, ?_, ?_⟩
  · cases handle <;>
      · simp only [computeResize]
        exact resize_branch_ratio i.width i.height _ _ hW hH
  · cases handle <;>
      simp only [computeResize, oppositeCorner] <;>
      first
        | rfl
        | (congr 1 <;> ring)
  · intro h1 h2 hne
    cases h1 <;> cases h2 <;>
      first
        | exact absurd rfl hne
        | (simp only [oppositeCorner, ne_eq, Point.mk.injEq, not_and]
           intro hx hy
           linarith)

/-- C4 witness: dragging the top-left handle of the demo image keeps its
bottom-right corner fixed. -/
theorem computeResize_spec_witness :
    ((0 : ℚ) < demoImg.width ∧ (0 : ℚ) < demoImg.height) ∧
    oppositeCorner ResizeHandle.topLeft
        (computeResize demoImg ResizeHandle.topLeft ⟨3, 4⟩) =
      oppositeCorner ResizeHandle.topLeft demoImg :=
  ⟨⟨by decide, by decide⟩,
    (computeResize_spec demoImg ResizeHandle.topLeft ⟨3, 4⟩ (by decide)
      (by decide)).2.1⟩

/-- C5: a path reports a hit iff some consecutive point pair of it lies
within (clamped-projection) distance `(lineWidth / 2 + 5) / scale` of the
probe, and the element scan walks the store in reverse z-order: a returned
path is a member before which (towards the top) every path misses, and a
`none` result means every stored path misses. -/
theorem getPathAtPoint_spec (els : List CanvasElement) (p : Point)
    (scale : ℚ) (hs : 0 < scale) :
    (∀ pe, CanvasElement.path pe ∈ els → 0 ≤ pe.path.lineWidth →
      (pathHit p pe.path scale = true ↔
        ∃ j a b, pe.path.points[j]? = some a ∧
          pe.path.points[j+1]? = some b ∧
          Real.sqrt ((segDistSq p a b : ℝ)) <
            (((pe.path.lineWidth / 2 + 5) / scale : ℚ) : ℝ))) ∧
    (∀ pe, getPathAtPoint els p scale = some pe →
      ∃ l1 l2, els = l1 ++ CanvasElement.path pe :: l2 ∧
        pathHit p pe.path scale = true ∧
        ∀ pe', CanvasElement.path pe' ∈ l2 →
          pathHit p pe'.path scale = false) ∧
    (getPathAtPoint els p scale = none ↔
      ∀ pe, CanvasElement.path pe ∈ els → pathHit p pe.path scale = false) := by
  refine ⟨?_, ?_, ?_⟩
  · intro pe _ hlw
    exact pathHit_iff p pe.path scale (div_pos (by linarith) hs)
  · intro pe hsome
    obtain ⟨l1, l2, hl, hhit, hmiss⟩ :=
      getPathAtPointRev_eq_some p scale els.reverse pe hsome
    rw [List.reverse_eq_iff] at hl
    refine ⟨l2.reverse, l1.reverse, ?_, hhit, ?_⟩
    · rw [hl]
      simp [List.reverse_append, List.reverse_cons, List.append_assoc]
    · intro pe' hmem
      exact hmiss pe' (List.mem_reverse.mp hmem)
  · simp only [getPathAtPoint]
    rw [getPathAtPointRev_eq_none_iff]
    constructor
    · intro h pe hm
      exact h pe (List.mem_reverse.mpr hm)
    · intro h pe hm
      exact h pe (List.mem_reverse.mp hm)

/-- C5 witness: with zoom scale 1, the miss characterization holds on the
demo store. -/
theorem getPathAtPoint_spec_witness :
    (0 : ℚ) < 1 ∧
    (getPathAtPoint demoStore ⟨0, 3⟩ 1 = none ↔
      ∀ pe, CanvasElement.path pe ∈ demoStore →
        pathHit ⟨0, 3⟩ pe.path 1 = false) :=
  ⟨by norm_num, (getPathAtPoint_spec demoStore ⟨0, 3⟩ 1 (by norm_num)).2.2⟩

end WB
